import Mathlib

/-!
# Shallow embedding of the `FormValidator` field-validation engine

This file embeds the TypeScript class `FormValidator` (together with the
plain data types it manipulates) into Lean and proves, or refutes, the
behavioural claims made about it.

JavaScript runtime values stored in form fields are modelled by the
inductive type `Value`; dates are modelled by a calendar-day index plus a
time-of-day, so that the `clearTime` helper (which strips the time-of-day)
and `moment` comparisons can be expressed exactly.  Code that can throw a
`TypeError` at runtime (the `noWhitespace` rule calls `.trim()` on an
arbitrary value) is modelled with `Except JsError`.
-/

set_option autoImplicit false

/-- A JavaScript `Date`, modelled as a calendar day index together with a
time-of-day offset inside that day.  `clearTime` zeroes the time-of-day. -/
structure JsDate where
  day : Int
  time : Int
  deriving DecidableEq, Repr

/-- A JavaScript runtime value as far as the validator can observe it. -/
inductive Value where
  | vNull
  | vUndefined
  | vBool (b : Bool)
  | vNum (n : Int)
  | vStr (s : String)
  | vDate (d : JsDate)
  | vArr (elems : List Value)
  | vObj (entries : List (String × Value))

/-- JavaScript truthiness of a `Value` (`if (value)`). -/
def Value.truthy : Value → Bool
  | .vNull => false
  | .vUndefined => false
  | .vBool b => b
  | .vNum n => n != 0
  | .vStr s => s ≠ ""
  | .vDate _ => true
  | .vArr _ => true
  | .vObj _ => true

/-- Whether a `Value` is a string (`typeof value === "string"`). -/
def Value.isStr : Value → Bool
  | .vStr _ => true
  | _ => false

/-- Modelled from the spec: the repository's `isEmpty` helper is not under
`src/`; the spec describes it as an "emptiness test (distinguishes empty
string/array/object/null/undefined from populated values)". -/
def isEmpty : Value → Bool
  | .vNull => true
  | .vUndefined => true
  | .vStr s => s = ""
  | .vArr elems => elems.isEmpty
  | .vObj entries => entries.isEmpty
  | _ => false

/-- Modelled from the spec: the repository's `clearTime` helper is not under
`src/`; the spec describes it as "date-only truncation (strips time-of-day)". -/
def clearTime (d : JsDate) : JsDate :=
  { day := d.day, time := 0 }

/-- `moment(a).isBefore(b)`: timestamp comparison of two dates, where the
timestamp orders first by day and then by time-of-day. -/
def momentIsBefore (a b : JsDate) : Bool :=
  a.day < b.day || (a.day = b.day && a.time < b.time)

/-- `moment(a).isAfter(b)`: timestamp comparison of two dates. -/
def momentIsAfter (a b : JsDate) : Bool :=
  momentIsBefore b a

/-- Modelled from the spec: the repository's `isEmail` helper is not under
`src/`; the spec describes it only as an opaque total "email format test". -/
def isEmail : Value → Bool
  | .vStr s => s.contains '@' && s.contains '.'
  | _ => false

/-- Modelled from the spec: the repository's `isPhoneNumber` helper is not
under `src/`; the spec describes it only as an opaque total
"phone-number format test". -/
def isPhoneNumber : Value → Bool
  | .vStr s => s.length ≥ 7 && s.all Char.isDigit
  | _ => false

/-- Modelled from the spec: the repository's `isStrongPassword` helper is not
under `src/`; the spec describes it only as an opaque total
"password-strength test". -/
def isStrongPassword : Value → Bool
  | .vStr s => s.length ≥ 8 && s.any Char.isDigit && s.any Char.isAlpha
  | _ => false

/-- The `ValidationSpecs` record: optional bounds parameterizing the
range/length rules.  A field being `none` means the key is absent. -/
structure ValidationSpecs where
  minLength : Option Int := none
  maxLength : Option Int := none
  minValue : Option Int := none
  maxValue : Option Int := none
  minDate : Option JsDate := none
  maxDate : Option JsDate := none
  deriving DecidableEq, Repr

/-- The closed enumeration `ValidationErrors` of error codes. -/
inductive ValidationErrors where
  | empty
  | invalidDate
  | isWhitespace
  | invalidEmail
  | weakPassword
  | beforeMinDate
  | afterMaxDate
  | lessThanMinLength
  | moreThanMaxLength
  | lessThanMinValue
  | moreThanMaxValue
  | invalidInput
  | invalidPhoneNumber
  deriving DecidableEq, Repr

/-- The `ModelFieldError` record: an error code plus echoed specs. -/
structure ModelFieldError where
  errorCode : ValidationErrors
  specs : Option ValidationSpecs := none
  deriving DecidableEq, Repr

/-- A runtime `TypeError`, raised when a method is called on a value that
does not support it (the only throwing site the validator can reach is
`.trim()` inside the `noWhitespace` rule). -/
inductive JsError where
  | typeError
  deriving DecidableEq, Repr, Inhabited

/-- JavaScript truthiness of an optional number
(`if (specs.minLength)` is false both for an absent key and for `0`). -/
def truthyNum : Option Int → Bool
  | none => false
  | some n => n != 0

/-- Shallow merge of two specs objects, as the object spread
`{ ...old, ...incoming }`: a key present in `incoming` overwrites the
key of the same name in `old`; absent keys keep the old binding. -/
def mergeSpecs (old incoming : ValidationSpecs) : ValidationSpecs where
  minLength := match incoming.minLength with | some x => some x | none => old.minLength
  maxLength := match incoming.maxLength with | some x => some x | none => old.maxLength
  minValue := match incoming.minValue with | some x => some x | none => old.minValue
  maxValue := match incoming.maxValue with | some x => some x | none => old.maxValue
  minDate := match incoming.minDate with | some x => some x | none => old.minDate
  maxDate := match incoming.maxDate with | some x => some x | none => old.maxDate

/-- `isEmpty` applied to the optional `specs` argument of `addValidation`:
an absent argument is empty, and a specs object is empty when it has no
keys. -/
def specsArgEmpty : Option ValidationSpecs → Bool
  | none => true
  | some sp => sp = {}

/-- One entry of the per-field state map: the class `ValidatorModelItem`.
Its constructor guards on `name && typeof name === "string"`, so for the
empty-string key the `name` member is left `undefined` (modelled as `none`)
and the `value` member keeps its initializer `null`. -/
structure ValidatorModelItem where
  name : Option String := none
  value : Value := .vNull
  specs : ValidationSpecs := {}
  validations : List String := []

/-- `new ValidatorModelItem(name, value)`. -/
def mkValidatorModelItem (name : String) (value : Value) : ValidatorModelItem :=
  if name ≠ "" then
    { name := some name, value := value, specs := {}, validations := [] }
  else
    {}

/-- The property key under which a field's error is recorded:
`this.formObjectErrors[item.name]` coerces an `undefined` name to the
string key `"undefined"`. -/
def itemKey (item : ValidatorModelItem) : String :=
  match item.name with
  | some s => s
  | none => "undefined"

/-- The error map `ModelErrors`, as a JavaScript object: an ordered list of
key/error bindings. -/
abbrev ErrorMap := List (String × ModelFieldError)

/-- Property read `errors[key]`. -/
def getEntry : ErrorMap → String → Option ModelFieldError
  | [], _ => none
  | (k, e) :: rest, key => if k = key then some e else getEntry rest key

/-- Property write `errors[key] = fe`: overwrites an existing binding in
place, otherwise appends a new binding. -/
def setEntry : ErrorMap → String → ModelFieldError → ErrorMap
  | [], key, fe => [(key, fe)]
  | (k, e) :: rest, key, fe =>
    if k = key then (k, fe) :: rest else (k, e) :: setEntry rest key fe

/-- A registered custom multi-field rule. -/
structure CustomValidator where
  fields : List String
  errorFields : List String
  validator : List Value → Option ModelFieldError

/-- The `FormValidator` state: the per-field map (in insertion order), the
error map, and the stored custom validators. -/
structure FormValidator where
  formObject : List (String × ValidatorModelItem) := []
  formObjectErrors : ErrorMap := []
  customValidators : List CustomValidator := []

/-- The `FormValidator` constructor: for a non-empty object-like record,
deep-copies it and creates one `ValidatorModelItem` per enumerable field
(deep copy is the identity on our immutable value model). -/
def FormValidator.ofRecord (record : List (String × Value)) : FormValidator :=
  if !record.isEmpty then
    { formObject := record.map (fun p => (p.1, mkValidatorModelItem p.1 p.2)) }
  else
    {}

/-- The private helper `isValidType`: membership of the rule-kind string in
the closed enumeration of nine validation types. -/
def FormValidator.isValidType (type : String) : Bool :=
  type ∈ ["required", "isDate", "noWhitespace", "dateRange", "textLength",
          "valueRange", "validEmail", "strongPassword", "isPhoneNumber"]

/-- The per-field effect of one `addValidation` registration: push the rule
kind onto the field's ordered rule list and, when a non-empty specs object
was supplied, shallow-merge it into the accumulated specs. -/
def registerOnItem (item : ValidatorModelItem) (type : String)
    (specs : Option ValidationSpecs) : ValidatorModelItem :=
  let pushed := { item with validations := item.validations ++ [type] }
  if !specsArgEmpty specs then
    { pushed with specs := mergeSpecs pushed.specs (specs.getD {}) }
  else
    pushed

/-- One iteration of `addValidation`'s loop over the requested field names:
if the map has the field, mutate its item, otherwise do nothing. -/
def registerField (formObject : List (String × ValidatorModelItem))
    (field : String) (type : String) (specs : Option ValidationSpecs) :
    List (String × ValidatorModelItem) :=
  formObject.map (fun p => if p.1 = field then (p.1, registerOnItem p.2 type specs) else p)

/-- `FormValidator.addValidation`: guarded by the field list being an array
(always true here), the type being a truthy string, and `isValidType`; then
registers the rule on every requested field present in the map. -/
def FormValidator.addValidation (v : FormValidator) (fields : List String)
    (type : String) (specs : Option ValidationSpecs) : FormValidator :=
  if type ≠ "" ∧ FormValidator.isValidType type then
    { v with formObject := fields.foldl (fun fo f => registerField fo f type specs) v.formObject }
  else
    v

/-- `FormValidator.addCustomValidator`: stores the triple when both field
lists are non-empty arrays and the validator is a function (always a
function here). -/
def FormValidator.addCustomValidator (v : FormValidator) (fields : List String)
    (errorFields : List String) (validator : List Value → Option ModelFieldError) :
    FormValidator :=
  if fields ≠ [] ∧ errorFields ≠ [] then
    { v with customValidators := v.customValidators ++ [⟨fields, errorFields, validator⟩] }
  else
    v

/-- `FormValidator.getErrors`. -/
def FormValidator.getErrors (v : FormValidator) : ErrorMap :=
  v.formObjectErrors

/-- `FormValidator.getError`. -/
def FormValidator.getError (v : FormValidator) (name : String) : Option ModelFieldError :=
  getEntry v.formObjectErrors name

/-- The private `validateField`: the switch over the rule kind.  The
`noWhitespace` case calls `.trim()` on the stored value whenever the value
is truthy, which throws a `TypeError` when the value is not a string; every
other case is total.  An unrecognized kind falls to the default and
passes. -/
def FormValidator.validateField (value : Value) (type : String)
    (specs : ValidationSpecs) : Except JsError (Option ModelFieldError) :=
  if type = "required" then
    .ok (if isEmpty value then some { errorCode := .empty } else none)
  else if type = "isDate" then
    .ok (match value with
      | .vDate _ => none
      | _ => some { errorCode := .invalidDate })
  else if type = "noWhitespace" then
    if value.truthy then
      match value with
      | .vStr s => .ok (if s.trim = "" then some { errorCode := .isWhitespace } else none)
      | _ => .error .typeError
    else
      .ok none
  else if type = "dateRange" then
    match value with
    | .vDate d =>
      let fe1 : Option ModelFieldError :=
        match specs.minDate with
        | some m =>
          if momentIsBefore (clearTime d) (clearTime m) then
            some { errorCode := .beforeMinDate, specs := some { minDate := some m } }
          else none
        | none => none
      let fe2 : Option ModelFieldError :=
        if fe1.isNone then
          match specs.maxDate with
          | some m =>
            if momentIsAfter (clearTime d) (clearTime m) then
              some { errorCode := .afterMaxDate, specs := some { maxDate := some m } }
            else none
          | none => none
        else fe1
      .ok fe2
    | _ => .ok (some { errorCode := .invalidDate })
  else if type = "textLength" then
    match value with
    | .vStr s =>
      let fe1 : Option ModelFieldError :=
        if truthyNum specs.minLength then
          if (s.length : Int) < specs.minLength.getD 0 then
            some { errorCode := .lessThanMinLength, specs := some { minLength := specs.minLength } }
          else none
        else none
      let fe2 : Option ModelFieldError :=
        if fe1.isNone && truthyNum specs.maxLength then
          if (s.length : Int) > specs.maxLength.getD 0 then
            some { errorCode := .moreThanMaxLength, specs := some { maxLength := specs.maxLength } }
          else none
        else fe1
      .ok fe2
    | _ => .ok (some { errorCode := .invalidInput })
  else if type = "valueRange" then
    match value with
    | .vNum n =>
      let fe1 : Option ModelFieldError :=
        if truthyNum specs.minValue then
          if n < specs.minValue.getD 0 then
            some { errorCode := .lessThanMinValue, specs := some { minValue := specs.minValue } }
          else none
        else none
      let fe2 : Option ModelFieldError :=
        if fe1.isNone && truthyNum specs.maxValue then
          if n > specs.maxValue.getD 0 then
            some { errorCode := .moreThanMaxValue, specs := some { maxValue := specs.maxValue } }
          else none
        else fe1
      .ok fe2
    | _ => .ok (some { errorCode := .invalidInput })
  else if type = "validEmail" then
    .ok (if isEmail value then none else some { errorCode := .invalidEmail })
  else if type = "strongPassword" then
    .ok (if isStrongPassword value then none else some { errorCode := .weakPassword })
  else if type = "isPhoneNumber" then
    .ok (if isPhoneNumber value then none else some { errorCode := .invalidPhoneNumber })
  else
    .ok none

/-- The do-while loop inside `validate` for a single field: evaluate the
rule at the current index, record a non-empty result under the field's
error key, and continue while there are rules left AND the error map holds
an entry for this field.  A thrown `TypeError` propagates. -/
def FormValidator.fieldLoop (value : Value) (specs : ValidationSpecs) (key : String) :
    List String → ErrorMap → Except JsError ErrorMap
  | [], errors => .ok errors
  | type :: rest, errors =>
    match FormValidator.validateField value type specs with
    | .error e => .error e
    | .ok fieldError =>
      let errors1 := match fieldError with
        | some fe => setEntry errors key fe
        | none => errors
      if !rest.isEmpty && (getEntry errors1 key).isSome then
        FormValidator.fieldLoop value specs key rest errors1
      else
        .ok errors1

/-- The `forEach` over the field map inside `validate`: fields with no
registered rules are skipped, the rest run their do-while loop in map
(insertion) order, threading the error map.  An exception aborts the
iteration. -/
def FormValidator.validateItems :
    List (String × ValidatorModelItem) → ErrorMap → Except JsError ErrorMap
  | [], errors => .ok errors
  | (_, item) :: rest, errors =>
    if !item.validations.isEmpty then
      match FormValidator.fieldLoop item.value item.specs (itemKey item) item.validations errors with
      | .error e => .error e
      | .ok errors1 => FormValidator.validateItems rest errors1
    else
      FormValidator.validateItems rest errors

/-- `FormValidator.validate`: runs every field's rule loop against the
stored error map and returns the validator (the block using the custom
validators is commented out in the source). -/
def FormValidator.validate (v : FormValidator) : Except JsError FormValidator :=
  match FormValidator.validateItems v.formObject v.formObjectErrors with
  | .error e => .error e
  | .ok errors1 => .ok { v with formObjectErrors := errors1 }

/-- Decidable equality of `Except` values, used to evaluate concrete runs of
the validator. -/
instance {ε α : Type} [DecidableEq ε] [DecidableEq α] : DecidableEq (Except ε α) := fun x y =>
  match x, y with
  | .ok a, .ok b =>
    if h : a = b then .isTrue (by rw [h]) else .isFalse (fun hc => h (Except.ok.inj hc))
  | .error a, .error b =>
    if h : a = b then .isTrue (by rw [h]) else .isFalse (fun hc => h (Except.error.inj hc))
  | .ok _, .error _ => .isFalse (fun hc => Except.noConfusion hc)
  | .error _, .ok _ => .isFalse (fun hc => Except.noConfusion hc)

/-- Specification device for the do-while loop of `validate`: the loop's
effect on the single error-map entry it reads and writes (the entry under
the field's key), with the same continue condition as `fieldLoop`. -/
def entryLoop (value : Value) (specs : ValidationSpecs) :
    List String → Option ModelFieldError → Except JsError (Option ModelFieldError)
  | [], e => .ok e
  | type :: rest, e =>
    match FormValidator.validateField value type specs with
    | .error err => .error err
    | .ok (some fe) =>
      if rest.isEmpty then .ok (some fe) else entryLoop value specs rest (some fe)
    | .ok none =>
      if rest.isEmpty || !e.isSome then .ok e else entryLoop value specs rest e

/-- Specification device: the entry produced when every rule of the list is
evaluated (the loop never stops early), keeping the last failing rule's
error. -/
def runAllRules (value : Value) (specs : ValidationSpecs) :
    List String → Option ModelFieldError → Except JsError (Option ModelFieldError)
  | [], e => .ok e
  | type :: rest, e =>
    match FormValidator.validateField value type specs with
    | .error err => .error err
    | .ok (some fe) => runAllRules value specs rest (some fe)
    | .ok none => runAllRules value specs rest e

/-- Concrete field item used to exhibit stale-error retention: value `"ab"`
with a `textLength` rule whose accumulated `minLength` is 1 (which passes). -/
def staleItemF : ValidatorModelItem where
  name := some "f"
  value := .vStr "ab"
  specs := { minLength := some 1 }
  validations := ["textLength"]

/-- Concrete field item with a failing `required` rule on a `null` value. -/
def staleItemG : ValidatorModelItem where
  name := some "g"
  value := .vNull
  specs := {}
  validations := ["required"]

/-- The stale error recorded for `staleItemF` by an earlier pass, echoing
the `minLength` bound that was in force at the time. -/
def staleError : ModelFieldError where
  errorCode := .lessThanMinLength
  specs := some { minLength := some 3 }

/-- A reachable validator state carrying the stale error for field `f`. -/
def staleValidator : FormValidator where
  formObject := [("f", staleItemF), ("g", staleItemG)]
  formObjectErrors := [("f", staleError)]
  customValidators := []

/-- The state `validate` produces from `staleValidator`: the stale entry
for `f` survives and a new entry for `g` is appended. -/
def staleValidatorAfter : FormValidator where
  formObject := [("f", staleItemF), ("g", staleItemG)]
  formObjectErrors := [("f", staleError), ("g", { errorCode := .empty })]
  customValidators := []

/-- The validator built from the record with the single field `a`, after a
registration call that named the unknown field `b` alongside `a`. -/
def unknownFieldExample : FormValidator :=
  (FormValidator.ofRecord [("a", .vNull)]).addValidation ["b", "a"] "required" none

/-- The state `validate` produces from `unknownFieldExample`: only the
known field `a` has an entry. -/
def unknownFieldExampleAfter : FormValidator where
  formObject := [("a", ({ name := some "a", value := .vNull, specs := {}, validations := ["required"] } : ValidatorModelItem))]
  formObjectErrors := [("a", ({ errorCode := .empty } : ModelFieldError))]
  customValidators := []

/-! ## Lemmas about the error map -/

theorem getEntry_setEntry_same (E : ErrorMap) (k : String) (fe : ModelFieldError) :
    getEntry (setEntry E k fe) k = some fe := by
  induction E with
  | nil => simp [setEntry, getEntry]
  | cons p rest ih =>
    obtain ⟨k0, e0⟩ := p
    by_cases h : k0 = k <;> simp [setEntry, getEntry, h, ih]

theorem getEntry_setEntry_ne (E : ErrorMap) (k q : String) (fe : ModelFieldError)
    (h : q ≠ k) : getEntry (setEntry E k fe) q = getEntry E q := by
  have hkq : ¬(k = q) := fun hc => h hc.symm
  induction E with
  | nil => simp [setEntry, getEntry, hkq]
  | cons p rest ih =>
    obtain ⟨k0, e0⟩ := p
    by_cases h0 : k0 = k
    · subst h0
      simp [setEntry, getEntry, hkq]
    · by_cases hq : k0 = q <;> simp [setEntry, getEntry, h0, hq, h, ih]

theorem setEntry_self (E : ErrorMap) (k : String) (fe : ModelFieldError)
    (h : getEntry E k = some fe) : setEntry E k fe = E := by
  induction E with
  | nil => simp [getEntry] at h
  | cons p rest ih =>
    obtain ⟨k0, e0⟩ := p
    by_cases h0 : k0 = k
    · subst h0
      simp [getEntry] at h
      simp [setEntry, h]
    · simp [getEntry, h0] at h
      simp [setEntry, h0, ih h]

theorem setEntry_setEntry (E : ErrorMap) (k : String) (a b : ModelFieldError) :
    setEntry (setEntry E k a) k b = setEntry E k b := by
  induction E with
  | nil => simp [setEntry]
  | cons p rest ih =>
    obtain ⟨k0, e0⟩ := p
    by_cases h0 : k0 = k <;> simp [setEntry, h0, ih]

/-! ## Lemmas about the do-while loop -/

theorem entryLoop_isSome (value : Value) (specs : ValidationSpecs) (rs : List String) :
    ∀ e e1, entryLoop value specs rs e = .ok e1 → e.isSome → e1.isSome := by
  induction rs with
  | nil =>
    intro e e1 h hs
    simp [entryLoop] at h
    exact h ▸ hs
  | cons t rest ih =>
    intro e e1 h hs
    unfold entryLoop at h
    cases hv : FormValidator.validateField value t specs with
    | error err => simp [hv] at h
    | ok fe =>
      rw [hv] at h
      cases fe with
      | some g =>
        by_cases hr : rest.isEmpty <;> simp [hr] at h
        · exact h ▸ rfl
        · exact ih _ _ h rfl
      | none =>
        by_cases hr : rest.isEmpty <;> simp [hr, hs] at h
        · exact h ▸ hs
        · exact ih _ _ h hs

theorem runAllRules_isSome (value : Value) (specs : ValidationSpecs) (rs : List String) :
    ∀ e e1, runAllRules value specs rs e = .ok e1 → e.isSome → e1.isSome := by
  induction rs with
  | nil =>
    intro e e1 h hs
    simp [runAllRules] at h
    exact h ▸ hs
  | cons t rest ih =>
    intro e e1 h hs
    unfold runAllRules at h
    cases hv : FormValidator.validateField value t specs with
    | error err => simp [hv] at h
    | ok fe =>
      rw [hv] at h
      cases fe with
      | some g => exact ih _ _ h rfl
      | none => exact ih _ _ h hs

theorem entryLoop_eq_runAllRules (value : Value) (specs : ValidationSpecs) (rs : List String) :
    ∀ e, e.isSome → entryLoop value specs rs e = runAllRules value specs rs e := by
  induction rs with
  | nil => intro e _; rfl
  | cons t rest ih =>
    intro e hs
    unfold entryLoop runAllRules
    cases hv : FormValidator.validateField value t specs with
    | error err => rfl
    | ok fe =>
      cases fe with
      | some g =>
        by_cases hr : rest.isEmpty
        · have : rest = [] := List.isEmpty_iff.mp hr
          subst this
          simp [runAllRules]
        · simp [hr, ih (some g) rfl]
      | none =>
        by_cases hr : rest.isEmpty
        · have : rest = [] := List.isEmpty_iff.mp hr
          subst this
          simp [runAllRules]
        · simp [hr, hs, ih e hs]

theorem runAllRules_idem (value : Value) (specs : ValidationSpecs) (rs : List String) :
    ∀ e e1, runAllRules value specs rs e = .ok e1 → runAllRules value specs rs e1 = .ok e1 := by
  induction rs with
  | nil =>
    intro e e1 h
    simp [runAllRules] at h ⊢
  | cons t rest ih =>
    intro e e1 h
    unfold runAllRules at h ⊢
    cases hv : FormValidator.validateField value t specs with
    | error err => simp [hv] at h
    | ok fe =>
      rw [hv] at h
      cases fe with
      | some g => exact h
      | none => exact ih _ _ h

theorem entryLoop_idem (value : Value) (specs : ValidationSpecs) (rs : List String)
    (e e1 : Option ModelFieldError) (h : entryLoop value specs rs e = .ok e1) :
    entryLoop value specs rs e1 = .ok e1 := by
  cases rs with
  | nil =>
    simp [entryLoop] at h
    subst h
    rfl
  | cons t rest =>
    unfold entryLoop at h ⊢
    cases hv : FormValidator.validateField value t specs with
    | error err => simp [hv] at h
    | ok fe =>
      rw [hv] at h
      cases fe with
      | some g =>
        by_cases hr : rest.isEmpty <;> simp [hr] at h ⊢
        · exact h ▸ rfl
        · exact h
      | none =>
        by_cases hr : rest.isEmpty
        · simp [hr]
        · by_cases hs : e.isSome
          · simp only [hr, hs] at h
            simp at h
            have h1 : e1.isSome := entryLoop_isSome value specs rest e e1 h hs
            rw [entryLoop_eq_runAllRules value specs rest e hs] at h
            simp [hr, h1]
            rw [entryLoop_eq_runAllRules value specs rest e1 h1]
            exact runAllRules_idem value specs rest e e1 h
          · have he : e = e1 := by simpa [hr, hs] using h
            subst he
            simp [hr, hs]

theorem fieldLoop_eq_entryLoop (value : Value) (specs : ValidationSpecs) (key : String)
    (rs : List String) : ∀ E : ErrorMap,
    FormValidator.fieldLoop value specs key rs E =
      match entryLoop value specs rs (getEntry E key) with
      | .error err => .error err
      | .ok none => .ok E
      | .ok (some fe) => .ok (setEntry E key fe) := by
  induction rs with
  | nil =>
    intro E
    cases he : getEntry E key with
    | none => simp [FormValidator.fieldLoop, entryLoop, he]
    | some fe => simp [FormValidator.fieldLoop, entryLoop, he, setEntry_self E key fe he]
  | cons t rest ih =>
    intro E
    unfold FormValidator.fieldLoop entryLoop
    cases hv : FormValidator.validateField value t specs with
    | error err => simp
    | ok fe =>
      cases fe with
      | some g =>
        by_cases hr : rest.isEmpty
        · simp [hr, getEntry_setEntry_same]
        · simp only [hr, getEntry_setEntry_same]
          simp only [Bool.not_false, Option.isSome_some, Bool.and_true, if_true,
            Bool.not_true, if_false]
          rw [ih (setEntry E key g), getEntry_setEntry_same]
          cases hres : entryLoop value specs rest (some g) with
          | error err => simp
          | ok e1 =>
            cases e1 with
            | none =>
              have := entryLoop_isSome value specs rest (some g) none hres rfl
              simp at this
            | some z => simp [setEntry_setEntry]
      | none =>
        by_cases hr : rest.isEmpty
        · cases he : getEntry E key with
          | none => simp [hr, he]
          | some fe => simp [hr, he, setEntry_self E key fe he]
        · cases he : getEntry E key with
          | none => simp [hr, he]
          | some fe =>
            simp only [hr, he]
            simp only [Bool.not_false, Option.isSome_some, Bool.and_true, if_true,
              Bool.or_false, Bool.not_true, if_false]
            rw [ih E, he]
            simp

theorem fieldLoop_frame (value : Value) (specs : ValidationSpecs) (key : String)
    (rs : List String) (E E1 : ErrorMap) (q : String) (hq : key ≠ q)
    (h : FormValidator.fieldLoop value specs key rs E = .ok E1) :
    getEntry E1 q = getEntry E q := by
  rw [fieldLoop_eq_entryLoop] at h
  cases hres : entryLoop value specs rs (getEntry E key) with
  | error err => rw [hres] at h; cases h
  | ok e1 =>
    rw [hres] at h
    cases e1 with
    | none => injection h with h1; subst h1; rfl
    | some fe =>
      injection h with h1
      subst h1
      exact getEntry_setEntry_ne E key q fe hq.symm

theorem fieldLoop_entry (value : Value) (specs : ValidationSpecs) (key : String)
    (rs : List String) (E E1 : ErrorMap)
    (h : FormValidator.fieldLoop value specs key rs E = .ok E1) :
    entryLoop value specs rs (getEntry E key) = .ok (getEntry E1 key) := by
  rw [fieldLoop_eq_entryLoop] at h
  cases hres : entryLoop value specs rs (getEntry E key) with
  | error err => rw [hres] at h; cases h
  | ok e1 =>
    rw [hres] at h
    cases e1 with
    | none =>
      injection h with h1
      subst h1
      cases hk : getEntry E key with
      | none => rfl
      | some x =>
        rw [hk] at hres
        have := entryLoop_isSome value specs rs (some x) none hres rfl
        simp at this
    | some fe =>
      injection h with h1
      subst h1
      rw [getEntry_setEntry_same]

theorem entryLoop_all_pass (value : Value) (specs : ValidationSpecs) (rs : List String)
    (hall : ∀ t ∈ rs, FormValidator.validateField value t specs = .ok none) :
    ∀ e, entryLoop value specs rs e = .ok e := by
  induction rs with
  | nil => intro e; rfl
  | cons t rest ih =>
    intro e
    unfold entryLoop
    rw [hall t (by simp)]
    by_cases hr : rest.isEmpty
    · simp [hr]
    · by_cases hs : e.isSome <;>
        simp [hr, hs, ih (fun u hu => hall u (by simp [hu])) e]

theorem fieldLoop_all_pass (value : Value) (specs : ValidationSpecs) (key : String)
    (rs : List String) (E : ErrorMap)
    (hall : ∀ t ∈ rs, FormValidator.validateField value t specs = .ok none) :
    FormValidator.fieldLoop value specs key rs E = .ok E := by
  rw [fieldLoop_eq_entryLoop, entryLoop_all_pass value specs rs hall (getEntry E key)]
  cases hk : getEntry E key with
  | none => rfl
  | some fe => simp [setEntry_self E key fe hk]

/-! ## Lemmas about the field iteration of `validate` -/

theorem validateItems_frame (items : List (String × ValidatorModelItem)) :
    ∀ (E E1 : ErrorMap) (q : String),
      FormValidator.validateItems items E = .ok E1 →
      (∀ p ∈ items, itemKey p.2 ≠ q) →
      getEntry E1 q = getEntry E q := by
  induction items with
  | nil =>
    intro E E1 q h _
    simp [FormValidator.validateItems] at h
    subst h
    rfl
  | cons p rest ih =>
    intro E E1 q h hks
    obtain ⟨k0, item⟩ := p
    unfold FormValidator.validateItems at h
    by_cases hv : item.validations.isEmpty
    · simp [hv] at h
      exact ih E E1 q h (fun r hr => hks r (by simp [hr]))
    · simp [hv] at h
      cases hf : FormValidator.fieldLoop item.value item.specs (itemKey item) item.validations E with
      | error err => rw [hf] at h; cases h
      | ok Ea =>
        rw [hf] at h
        have h1 := fieldLoop_frame item.value item.specs (itemKey item) item.validations E Ea q
          (hks (k0, item) (by simp)) hf
        rw [ih Ea E1 q h (fun r hr => hks r (by simp [hr])), h1]

theorem validateItems_entry_pass (K : String) (items : List (String × ValidatorModelItem)) :
    ∀ (E E1 : ErrorMap),
      FormValidator.validateItems items E = .ok E1 →
      (∀ p ∈ items, itemKey p.2 = K →
        ∀ t ∈ p.2.validations, FormValidator.validateField p.2.value t p.2.specs = .ok none) →
      getEntry E1 K = getEntry E K := by
  induction items with
  | nil =>
    intro E E1 h _
    simp [FormValidator.validateItems] at h
    subst h
    rfl
  | cons p rest ih =>
    intro E E1 h hall
    obtain ⟨k0, item⟩ := p
    unfold FormValidator.validateItems at h
    by_cases hv : item.validations.isEmpty
    · simp [hv] at h
      exact ih E E1 h (fun r hr => hall r (by simp [hr]))
    · simp [hv] at h
      cases hf : FormValidator.fieldLoop item.value item.specs (itemKey item) item.validations E with
      | error err => rw [hf] at h; cases h
      | ok Ea =>
        rw [hf] at h
        by_cases hk : itemKey item = K
        · have hp : ∀ t ∈ item.validations,
              FormValidator.validateField item.value t item.specs = .ok none :=
            hall (k0, item) (by simp) hk
          have hE := fieldLoop_all_pass item.value item.specs (itemKey item) item.validations E hp
          rw [hE] at hf
          injection hf with hf1
          subst hf1
          exact ih E E1 h (fun r hr => hall r (by simp [hr]))
        · have h1 := fieldLoop_frame item.value item.specs (itemKey item) item.validations E Ea K hk hf
          rw [ih Ea E1 h (fun r hr => hall r (by simp [hr])), h1]

theorem validateItems_fixed (items : List (String × ValidatorModelItem)) :
    ∀ E : ErrorMap,
      (∀ p ∈ items, ¬p.2.validations.isEmpty →
        FormValidator.fieldLoop p.2.value p.2.specs (itemKey p.2) p.2.validations E = .ok E) →
      FormValidator.validateItems items E = .ok E := by
  induction items with
  | nil => intro E _; rfl
  | cons p rest ih =>
    intro E hfix
    obtain ⟨k0, item⟩ := p
    unfold FormValidator.validateItems
    by_cases hv : item.validations.isEmpty
    · simp [hv]
      exact ih E (fun r hr hne => hfix r (by simp [hr]) hne)
    · simp [hv]
      rw [hfix (k0, item) (by simp) hv]
      exact ih E (fun r hr hne => hfix r (by simp [hr]) hne)

theorem validateItems_fix (items : List (String × ValidatorModelItem)) :
    ∀ (E0 E1 : ErrorMap),
      FormValidator.validateItems items E0 = .ok E1 →
      (items.map (fun p => itemKey p.2)).Nodup →
      ∀ p ∈ items, ¬p.2.validations.isEmpty →
        FormValidator.fieldLoop p.2.value p.2.specs (itemKey p.2) p.2.validations E1 = .ok E1 := by
  induction items with
  | nil =>
    intro E0 E1 _ _ p hp
    exact absurd hp (List.not_mem_nil p)
  | cons q rest ih =>
    intro E0 E1 h hnd p hp hne
    obtain ⟨k0, item⟩ := q
    unfold FormValidator.validateItems at h
    by_cases hv : item.validations.isEmpty
    · simp [hv] at h
      cases hp with
      | head => exact absurd hv hne
      | tail _ hp1 => exact ih E0 E1 h hnd.of_cons p hp1 hne
    · simp [hv] at h
      cases hf : FormValidator.fieldLoop item.value item.specs (itemKey item) item.validations E0 with
      | error err => rw [hf] at h; cases h
      | ok Ea =>
        rw [hf] at h
        cases hp with
        | head =>
          have hnotin : ∀ r ∈ rest, itemKey r.2 ≠ itemKey item := by
            intro r hr hc
            have hmem : itemKey item ∈ List.map (fun p => itemKey p.2) rest := by
              rw [← hc]
              exact List.mem_map_of_mem _ hr
            exact (List.nodup_cons.mp hnd).1 hmem
          have hframe := validateItems_frame rest Ea E1 (itemKey item) h hnotin
          have hent := fieldLoop_entry item.value item.specs (itemKey item) item.validations E0 Ea hf
          have hidem := entryLoop_idem item.value item.specs item.validations
            (getEntry E0 (itemKey item)) (getEntry Ea (itemKey item)) hent
          rw [fieldLoop_eq_entryLoop, hframe, hidem]
          cases hk : getEntry Ea (itemKey item) with
          | none => rfl
          | some fe => simp [setEntry_self E1 (itemKey item) fe (hk ▸ hframe)]
        | tail _ hp1 => exact ih Ea E1 h hnd.of_cons p hp1 hne

/-! ## Helper lemmas about registration and validation plumbing -/

theorem validate_getErrors_congr (v w : FormValidator)
    (hfo : w.formObject = v.formObject) (herr : w.formObjectErrors = v.formObjectErrors) :
    (FormValidator.validate w).map FormValidator.getErrors
      = (FormValidator.validate v).map FormValidator.getErrors := by
  unfold FormValidator.validate
  rw [hfo, herr]
  cases FormValidator.validateItems v.formObject v.formObjectErrors <;> rfl

theorem validate_of_validateItems_self (v : FormValidator)
    (h : FormValidator.validateItems v.formObject v.formObjectErrors = .ok v.formObjectErrors) :
    FormValidator.validate v = .ok v := by
  unfold FormValidator.validate
  rw [h]

theorem registerOnItem_name (item : ValidatorModelItem) (type : String)
    (specs : Option ValidationSpecs) :
    (registerOnItem item type specs).name = item.name := by
  unfold registerOnItem
  split_ifs <;> rfl

theorem registerField_mem (fo : List (String × ValidatorModelItem)) (f type : String)
    (specs : Option ValidationSpecs) (p : String × ValidatorModelItem)
    (hp : p ∈ registerField fo f type specs) :
    ∃ q ∈ fo, p.1 = q.1 ∧ p.2.name = q.2.name := by
  obtain ⟨q, hq, hqe⟩ := List.mem_map.mp hp
  by_cases h : q.1 = f
  · refine ⟨q, hq, ?_, ?_⟩ <;> rw [← hqe] <;> simp [h, registerOnItem_name]
  · refine ⟨q, hq, ?_, ?_⟩ <;> rw [← hqe] <;> simp [h]

theorem registerField_absent (fo : List (String × ValidatorModelItem)) (f type : String)
    (specs : Option ValidationSpecs) (habs : ∀ p ∈ fo, p.1 ≠ f) :
    registerField fo f type specs = fo := by
  unfold registerField
  have h : ∀ p ∈ fo, (if p.1 = f then (p.1, registerOnItem p.2 type specs) else p) = p := by
    intro p hp
    simp [habs p hp]
  rw [List.map_congr_left h]
  simp

theorem foldl_registerField_mem (fields : List String) :
    ∀ (fo : List (String × ValidatorModelItem)) (type : String)
      (specs : Option ValidationSpecs) (p : String × ValidatorModelItem),
      p ∈ fields.foldl (fun acc f => registerField acc f type specs) fo →
      ∃ q ∈ fo, p.1 = q.1 ∧ p.2.name = q.2.name := by
  induction fields with
  | nil =>
    intro fo type specs p hp
    exact ⟨p, hp, rfl, rfl⟩
  | cons f rest ih =>
    intro fo type specs p hp
    obtain ⟨q, hq, h1, h2⟩ := ih (registerField fo f type specs) type specs p hp
    obtain ⟨r, hr, h3, h4⟩ := registerField_mem fo f type specs q hq
    exact ⟨r, hr, h1.trans h3, h2.trans h4⟩

theorem foldl_registerField_filter (fields : List String) (F type : String)
    (specs : Option ValidationSpecs) :
    ∀ fo : List (String × ValidatorModelItem), (∀ p ∈ fo, p.1 ≠ F) →
      fields.foldl (fun acc f => registerField acc f type specs) fo
        = (fields.filter (fun k => k ≠ F)).foldl
            (fun acc f => registerField acc f type specs) fo := by
  induction fields with
  | nil => intro fo _; rfl
  | cons f rest ih =>
    intro fo habs
    by_cases hf : f = F
    · subst hf
      simp only [List.foldl_cons, List.filter_cons, decide_not, decide_eq_true_eq]
      rw [registerField_absent fo f type specs habs]
      simpa using ih fo habs
    · simp only [List.foldl_cons, List.filter_cons, decide_not, decide_eq_true_eq]
      have habs1 : ∀ p ∈ registerField fo f type specs, p.1 ≠ F := by
        intro p hp
        obtain ⟨q, hq, h1, _⟩ := registerField_mem fo f type specs p hp
        rw [h1]
        exact habs q hq
      simpa [hf] using ih (registerField fo f type specs) habs1

/-! ## The claims -/

/-- C1: the claim states that `validate` evaluates a field's rules in
registration order and stops at the first failing rule, so that a value
failing both rules in order [required, isDate] gets the first code `empty`.
The do-while in the source continues while `formObjectErrors[item.name]` is
truthy (instead of while it is falsy), so after the first failure the loop
keeps going and each later failing rule overwrites the entry: the recorded
code is the LAST failing rule's `invalidDate`.  This theorem evaluates the
code at that input: both rules fail individually, with `empty` first, yet
the error map holds `invalidDate`. -/
theorem claim_C1 :
    (FormValidator.validate
        (((FormValidator.ofRecord [("f", .vNull)]).addValidation ["f"] "required" none).addValidation
          ["f"] "isDate" none)).map (fun w => w.getError "f")
      = .ok (some { errorCode := .invalidDate })
    ∧ FormValidator.validateField .vNull "required" {} = .ok (some { errorCode := .empty })
    ∧ FormValidator.validateField .vNull "isDate" {} = .ok (some { errorCode := .invalidDate }) :=
  ⟨rfl, rfl, rfl⟩

/-- C2 counterexample: the claim states that when all of a field's rules
pass, a prior error for that field is cleared (the key becomes absent).
Concretely: field `f` holds `"ab"`; `textLength` with `minLength` 3 is
registered and `validate` records `lessThanMinLength`; re-registering
`textLength` with `minLength` 1 makes every rule of `f` pass (first
conjunct), yet a second `validate` leaves the stale error in place instead
of clearing it. -/
theorem claim_C2_counterexample :
    FormValidator.validateField (.vStr "ab") "textLength" { minLength := some 1 } = .ok none
    ∧ ((FormValidator.validate
          ((FormValidator.ofRecord [("f", .vStr "ab")]).addValidation ["f"] "textLength"
            (some { minLength := some 3 }))).bind
        (fun w =>
          (FormValidator.validate
            (w.addValidation ["f"] "textLength" (some { minLength := some 1 }))).map
            (fun u => u.getError "f")))
      = .ok (some { errorCode := .lessThanMinLength, specs := some { minLength := some 3 } }) :=
  ⟨rfl, rfl⟩

/-- C2 (amended): `validate` never clears an error-map entry.  For any key
`K` such that every field recorded under `K` has only passing rules, a
successful `validate` leaves the entry under `K` exactly as it was: a prior
error persists (and the entry changes only when some rule fails). -/
theorem claim_C2 (v v1 : FormValidator) (K : String)
    (hok : FormValidator.validate v = .ok v1)
    (hpass : ∀ p ∈ v.formObject, itemKey p.2 = K →
      ∀ t ∈ p.2.validations, FormValidator.validateField p.2.value t p.2.specs = .ok none) :
    v1.getError K = v.getError K := by
  unfold FormValidator.validate at hok
  cases hres : FormValidator.validateItems v.formObject v.formObjectErrors with
  | error err => rw [hres] at hok; cases hok
  | ok E1 =>
    rw [hres] at hok
    injection hok with h1
    subst h1
    unfold FormValidator.getError
    exact validateItems_entry_pass K v.formObject v.formObjectErrors E1 hres hpass

/-- C2 witness: a concrete validator whose field `f` has a stale
`lessThanMinLength` error and whose single rule now passes; `validate`
succeeds and the stale entry survives unchanged. -/
theorem claim_C2_witness :
    FormValidator.getError staleValidator "f" = some staleError
    ∧ FormValidator.getError staleValidatorAfter "f" = some staleError := by
  constructor
  · rfl
  · have h := claim_C2 staleValidator staleValidatorAfter "f" rfl (by decide)
    rw [h]
    rfl

/-- C3 counterexample: the claim states evaluation is total and never
throws, and in particular that `noWhitespace` returns a result for every
stored value.  For the stored number `5` (truthy, not a string) the
`noWhitespace` case calls `.trim()` on it, so `validate` throws a
`TypeError` instead of returning. -/
theorem claim_C3_counterexample :
    FormValidator.validate
        ((FormValidator.ofRecord [("f", .vNum 5)]).addValidation ["f"] "noWhitespace" none)
      = .error .typeError := rfl

theorem validateField_total_of_ne (value : Value) (type : String) (specs : ValidationSpecs)
    (h : type ≠ "noWhitespace") :
    ∃ r, FormValidator.validateField value type specs = .ok r := by
  unfold FormValidator.validateField
  by_cases h1 : type = "required"
  · rw [if_pos h1]; exact ⟨_, rfl⟩
  rw [if_neg h1]
  by_cases h2 : type = "isDate"
  · rw [if_pos h2]; exact ⟨_, rfl⟩
  rw [if_neg h2, if_neg h]
  by_cases h4 : type = "dateRange"
  · rw [if_pos h4]; cases value <;> exact ⟨_, rfl⟩
  rw [if_neg h4]
  by_cases h5 : type = "textLength"
  · rw [if_pos h5]; cases value <;> exact ⟨_, rfl⟩
  rw [if_neg h5]
  by_cases h6 : type = "valueRange"
  · rw [if_pos h6]; cases value <;> exact ⟨_, rfl⟩
  rw [if_neg h6]
  by_cases h7 : type = "validEmail"
  · rw [if_pos h7]; exact ⟨_, rfl⟩
  rw [if_neg h7]
  by_cases h8 : type = "strongPassword"
  · rw [if_pos h8]; exact ⟨_, rfl⟩
  rw [if_neg h8]
  by_cases h9 : type = "isPhoneNumber"
  · rw [if_pos h9]; exact ⟨_, rfl⟩
  rw [if_neg h9]
  exact ⟨_, rfl⟩

theorem validateField_noWhitespace_error (value : Value) (specs : ValidationSpecs) :
    (∃ e, FormValidator.validateField value "noWhitespace" specs = .error e)
      ↔ (value.truthy = true ∧ value.isStr = false) := by
  have hne : Nonempty JsError := ⟨.typeError⟩
  unfold FormValidator.validateField
  cases value with
  | vStr s =>
    simp only [Value.truthy, Value.isStr]
    constructor
    · rintro ⟨e, he⟩
      split_ifs at he
    · rintro ⟨-, hc⟩
      exact Bool.noConfusion hc
  | _ => simp [Value.truthy, Value.isStr, exists_const]

/-- C3 (amended): every rule predicate returns either no error or a
well-formed `ModelFieldError` for arbitrary stored values — except
`noWhitespace`, which throws a `TypeError` exactly when the stored value is
truthy and not a string (the code calls `.trim()` on the value).  Unknown
rule kinds fall through to the default and always pass. -/
theorem claim_C3 (value : Value) (type : String) (specs : ValidationSpecs) :
    (∃ e, FormValidator.validateField value type specs = .error e)
      ↔ (type = "noWhitespace" ∧ value.truthy = true ∧ value.isStr = false) := by
  by_cases h : type = "noWhitespace"
  · subst h
    rw [validateField_noWhitespace_error]
    simp
  · constructor
    · rintro ⟨e, he⟩
      obtain ⟨r, hr⟩ := validateField_total_of_ne value type specs h
      rw [hr] at he
      exact Except.noConfusion he
    · rintro ⟨hc, -⟩
      exact absurd hc h

/-- C4 counterexample: the claim states that for every validator state a
second `validate` yields the same error map as the first.  In the record
below the empty-string field's item keeps an `undefined` name, so its error
is recorded under the key `"undefined"`, which collides with the real field
`"undefined"`.  The first `validate` succeeds (second conjunct); during the
second one the collided entry makes the `"undefined"` field's loop continue
into its `noWhitespace` rule, which throws a `TypeError` on the stored
number `5` — so the second call does not even return an error map. -/
theorem claim_C4_counterexample :
    ((FormValidator.validate
        ((((FormValidator.ofRecord [("undefined", .vNum 5), ("", .vNum 0)]).addValidation
            ["undefined"] "required" none).addValidation
            ["undefined"] "noWhitespace" none).addValidation [""] "required" none)).bind
      FormValidator.validate) = .error .typeError
    ∧ (FormValidator.validate
        ((((FormValidator.ofRecord [("undefined", .vNum 5), ("", .vNum 0)]).addValidation
            ["undefined"] "required" none).addValidation
            ["undefined"] "noWhitespace" none).addValidation [""] "required" none)).map
        FormValidator.getErrors
      = .ok [("undefined", ({ errorCode := .empty } : ModelFieldError))] :=
  ⟨rfl, rfl⟩

/-- C4 (amended): for every validator state whose fields have pairwise
distinct error-map keys (true of any record that does not combine the
empty-string key with a shadowing `"undefined"` key), if `validate`
succeeds then calling it again returns the same state — in particular the
same error map. -/
theorem claim_C4 (v v1 : FormValidator)
    (hnd : (v.formObject.map (fun p => itemKey p.2)).Nodup)
    (hok : FormValidator.validate v = .ok v1) :
    FormValidator.validate v1 = .ok v1 := by
  unfold FormValidator.validate at hok
  cases hres : FormValidator.validateItems v.formObject v.formObjectErrors with
  | error err => rw [hres] at hok; cases hok
  | ok E1 =>
    rw [hres] at hok
    injection hok with h1
    subst h1
    refine validate_of_validateItems_self _ ?_
    refine validateItems_fixed v.formObject E1 ?_
    intro p hp hne
    exact validateItems_fix v.formObject v.formObjectErrors E1 hres hnd p hp hne

/-- C4 witness: the stale-error validator from the C2 scenario has distinct
field keys; `validate` maps it to `staleValidatorAfter`, and a second
`validate` leaves that state (and so its error map) unchanged. -/
theorem claim_C4_witness :
    FormValidator.validate staleValidatorAfter = .ok staleValidatorAfter :=
  claim_C4 staleValidator staleValidatorAfter (by decide) rfl

/-- C5: registering a custom validator (with any field lists and evaluation
function) changes none of the observable behavior: `getErrors`, `getError`,
and the error map produced by `validate` are identical with or without the
registration — the stored custom rule is never executed. -/
theorem claim_C5 (v : FormValidator) (fields errorFields : List String)
    (g : List Value → Option ModelFieldError) :
    (v.addCustomValidator fields errorFields g).getErrors = v.getErrors
    ∧ (∀ n, (v.addCustomValidator fields errorFields g).getError n = v.getError n)
    ∧ (FormValidator.validate (v.addCustomValidator fields errorFields g)).map
        FormValidator.getErrors
      = (FormValidator.validate v).map FormValidator.getErrors := by
  have hfo : (v.addCustomValidator fields errorFields g).formObject = v.formObject := by
    unfold FormValidator.addCustomValidator
    split_ifs <;> rfl
  have herr : (v.addCustomValidator fields errorFields g).formObjectErrors
      = v.formObjectErrors := by
    unfold FormValidator.addCustomValidator
    split_ifs <;> rfl
  refine ⟨herr, fun n => ?_, ?_⟩
  · unfold FormValidator.getError
    rw [herr]
  · exact validate_getErrors_congr v _ hfo herr

/-- C7: for `dateRange` the tested value and the bound are passed through
`clearTime` before the `moment` comparison, so a value on the same calendar
day as `minDate` (even with a later time-of-day) can never produce
`beforeMinDate` (first conjunct); and for `dateRange`, `textLength` and
`valueRange` the min bound is checked first and a min failure is returned
regardless of the max bound, which is skipped (remaining conjuncts). -/
theorem claim_C7 :
    (∀ (d t t2 : Int) (sp : ValidationSpecs) (s1 : Option ValidationSpecs),
        sp.minDate = some ⟨d, t2⟩ → t2 < t →
        FormValidator.validateField (.vDate ⟨d, t⟩) "dateRange" sp
          ≠ .ok (some { errorCode := .beforeMinDate, specs := s1 }))
    ∧ (∀ (d m : JsDate) (sp : ValidationSpecs), sp.minDate = some m →
        momentIsBefore (clearTime d) (clearTime m) = true →
        FormValidator.validateField (.vDate d) "dateRange" sp
          = .ok (some { errorCode := .beforeMinDate, specs := some { minDate := some m } }))
    ∧ (∀ (s : String) (m : Int) (sp : ValidationSpecs), sp.minLength = some m → m ≠ 0 →
        (s.length : Int) < m →
        FormValidator.validateField (.vStr s) "textLength" sp
          = .ok (some { errorCode := .lessThanMinLength, specs := some { minLength := some m } }))
    ∧ (∀ (n m : Int) (sp : ValidationSpecs), sp.minValue = some m → m ≠ 0 → n < m →
        FormValidator.validateField (.vNum n) "valueRange" sp
          = .ok (some { errorCode := .lessThanMinValue, specs := some { minValue := some m } })) := by
  refine ⟨?_, ?_, ?_, ?_⟩
  · intro d t t2 sp s1 hmin hlt
    simp [FormValidator.validateField, hmin, clearTime, momentIsBefore]
    cases hmax : sp.maxDate with
    | none => simp
    | some m =>
      by_cases hc : momentIsAfter ⟨d, 0⟩ ⟨m.day, 0⟩ = true <;> simp [hc]
  · intro d m sp hmin hbef
    simp [FormValidator.validateField, hmin, hbef]
  · intro s m sp hmin hm hlt
    simp [FormValidator.validateField, hmin, truthyNum, bne_iff_ne, hm, hlt]
  · intro n m sp hmin hm hlt
    simp [FormValidator.validateField, hmin, truthyNum, bne_iff_ne, hm, hlt]

/-- C7 witness: concrete instances of the four conjuncts — a date with a
later time-of-day on `minDate`'s own day is not `beforeMinDate`; and for
each parameterized rule, an input violating both bounds at once reports the
min-bound error. -/
theorem claim_C7_witness :
    (FormValidator.validateField (.vDate ⟨10, 5⟩) "dateRange" { minDate := some ⟨10, 2⟩ }
        ≠ .ok (some { errorCode := .beforeMinDate, specs := some { minDate := some ⟨10, 2⟩ } }))
    ∧ FormValidator.validateField (.vDate ⟨3, 0⟩) "dateRange"
        { minDate := some ⟨5, 0⟩, maxDate := some ⟨2, 0⟩ }
        = .ok (some { errorCode := .beforeMinDate, specs := some { minDate := some ⟨5, 0⟩ } })
    ∧ FormValidator.validateField (.vStr "a") "textLength"
        { minLength := some 2, maxLength := some 0 }
        = .ok (some { errorCode := .lessThanMinLength, specs := some { minLength := some 2 } })
    ∧ FormValidator.validateField (.vNum 1) "valueRange"
        { minValue := some 5, maxValue := some 0 }
        = .ok (some { errorCode := .lessThanMinValue, specs := some { minValue := some 5 } }) :=
  ⟨claim_C7.1 10 5 2 { minDate := some ⟨10, 2⟩ } (some { minDate := some ⟨10, 2⟩ })
      rfl (by decide),
    claim_C7.2.1 ⟨3, 0⟩ ⟨5, 0⟩ { minDate := some ⟨5, 0⟩, maxDate := some ⟨2, 0⟩ }
      rfl (by decide),
    claim_C7.2.2.1 "a" 2 { minLength := some 2, maxLength := some 0 }
      rfl (by decide) (by decide),
    claim_C7.2.2.2 1 5 { minValue := some 5, maxValue := some 0 }
      rfl (by decide) (by decide)⟩

/-- C9: `addValidation` with a rule kind outside the closed nine-kind
enumeration is a complete no-op: the `isValidType` membership check fails
and the whole call returns the validator unchanged. -/
theorem claim_C9 (v : FormValidator) (fields : List String) (type : String)
    (specs : Option ValidationSpecs)
    (h : type ∉ ["required", "isDate", "noWhitespace", "dateRange", "textLength",
                 "valueRange", "validEmail", "strongPassword", "isPhoneNumber"]) :
    v.addValidation fields type specs = v := by
  unfold FormValidator.addValidation
  rw [if_neg]
  intro hc
  exact h (by simpa [FormValidator.isValidType] using hc.2)

/-- C9 witness: registering the unknown kind `"customRule"` on a known
field leaves the validator unchanged. -/
theorem claim_C9_witness :
    "customRule" ∉ ["required", "isDate", "noWhitespace", "dateRange", "textLength",
                    "valueRange", "validEmail", "strongPassword", "isPhoneNumber"]
    ∧ (FormValidator.ofRecord [("f", .vNull)]).addValidation ["f"] "customRule" none
        = FormValidator.ofRecord [("f", .vNull)] :=
  ⟨by decide, claim_C9 (FormValidator.ofRecord [("f", .vNull)]) ["f"] "customRule" none
      (by decide)⟩

/-- C10: a lower bound of `0` is falsy in the `if (specs.minValue)` /
`if (specs.minLength)` guards, so `valueRange` with `minValue` 0 and
`textLength` with `minLength` 0 behave exactly as if no lower bound had
been supplied; in particular `-5` passes `valueRange` with `minValue` 0. -/
theorem claim_C10 :
    (∀ (n : Int) (sp : ValidationSpecs), sp.minValue = some 0 →
        FormValidator.validateField (.vNum n) "valueRange" sp
          = FormValidator.validateField (.vNum n) "valueRange" { sp with minValue := none })
    ∧ (∀ (s : String) (sp : ValidationSpecs), sp.minLength = some 0 →
        FormValidator.validateField (.vStr s) "textLength" sp
          = FormValidator.validateField (.vStr s) "textLength" { sp with minLength := none })
    ∧ FormValidator.validateField (.vNum (-5)) "valueRange" { minValue := some 0 } = .ok none := by
  refine ⟨?_, ?_, by decide⟩
  · intro n sp h
    simp [FormValidator.validateField, truthyNum, h]
  · intro s sp h
    simp [FormValidator.validateField, truthyNum, h]

/-- C10 witness: with `minValue` 0 (resp. `minLength` 0) the rule gives the
same result as with no lower bound at all, at concrete inputs. -/
theorem claim_C10_witness :
    FormValidator.validateField (.vNum (-7)) "valueRange" { minValue := some 0 }
        = FormValidator.validateField (.vNum (-7)) "valueRange" {}
    ∧ FormValidator.validateField (.vStr "") "textLength" { minLength := some 0 }
        = FormValidator.validateField (.vStr "") "textLength" {} :=
  ⟨claim_C10.1 (-7) { minValue := some 0 } rfl,
    claim_C10.2.1 "" { minLength := some 0 } rfl⟩

/-- C8: for a field name `F` absent from the record (in a well-formed
validator, where every item's stored name matches its map key), an
`addValidation` call naming `F` behaves exactly as the same call with `F`
filtered out of the field list — `F` acquires no item, no rules and no
specs, while the other named fields are registered normally — and a
subsequent successful `validate` produces no error-map entry for `F`. -/
theorem claim_C8 (v : FormValidator) (F : String) (fields : List String)
    (type : String) (specs : Option ValidationSpecs)
    (hwf : ∀ p ∈ v.formObject, p.2.name = some p.1)
    (habs : ∀ p ∈ v.formObject, p.1 ≠ F)
    (herr : FormValidator.getError v F = none) :
    (v.addValidation fields type specs
        = v.addValidation (fields.filter (fun k => k ≠ F)) type specs)
    ∧ (∀ p ∈ (v.addValidation fields type specs).formObject, p.1 ≠ F)
    ∧ (∀ w, FormValidator.validate (v.addValidation fields type specs) = .ok w →
        FormValidator.getError w F = none) := by
  have hmem : ∀ p ∈ (v.addValidation fields type specs).formObject,
      ∃ q ∈ v.formObject, p.1 = q.1 ∧ p.2.name = q.2.name := by
    intro p hp
    unfold FormValidator.addValidation at hp
    split_ifs at hp
    · exact foldl_registerField_mem fields v.formObject type specs p hp
    · exact ⟨p, hp, rfl, rfl⟩
  refine ⟨?_, ?_, ?_⟩
  · unfold FormValidator.addValidation
    split_ifs
    · rw [foldl_registerField_filter fields F type specs v.formObject habs]
    · rfl
  · intro p hp
    obtain ⟨q, hq, h1, _⟩ := hmem p hp
    rw [h1]
    exact habs q hq
  · intro w hw
    unfold FormValidator.validate at hw
    cases hres : FormValidator.validateItems (v.addValidation fields type specs).formObject
        (v.addValidation fields type specs).formObjectErrors with
    | error err => rw [hres] at hw; cases hw
    | ok E1 =>
      rw [hres] at hw
      injection hw with hw1
      subst hw1
      have hkeys : ∀ p ∈ (v.addValidation fields type specs).formObject, itemKey p.2 ≠ F := by
        intro p hp
        obtain ⟨q, hq, _, h2⟩ := hmem p hp
        unfold itemKey
        rw [h2, hwf q hq]
        exact habs q hq
      have herr2 : (v.addValidation fields type specs).formObjectErrors
          = v.formObjectErrors := by
        unfold FormValidator.addValidation
        split_ifs <;> rfl
      have hframe := validateItems_frame (v.addValidation fields type specs).formObject
        (v.addValidation fields type specs).formObjectErrors E1 F hres hkeys
      unfold FormValidator.getError
      rw [hframe, herr2]
      exact herr

/-- C8 witness: with record `(a, null)`, registering `required` for the
field list `[b, a]` equals registering it for the filtered list `[a]`, and
after `validate` the unknown field `b` has no error-map entry. -/
theorem claim_C8_witness :
    (unknownFieldExample
        = (FormValidator.ofRecord [("a", .vNull)]).addValidation
            (["b", "a"].filter (fun k => k ≠ "b")) "required" none)
    ∧ FormValidator.getError unknownFieldExampleAfter "b" = none := by
  have h := claim_C8 (FormValidator.ofRecord [("a", .vNull)]) "b" ["b", "a"] "required" none
    (by decide) (by decide) rfl
  exact ⟨h.1, h.2.2 unknownFieldExampleAfter rfl⟩

/-- C6 (amended): on a known field with a non-empty name, two
`addValidation` registrations accumulate — `textLength` with `minLength` 3
followed by `textLength` with `maxLength` 10 yields the shallow-merged
specs holding both bounds and the rule list [textLength, textLength]
(first conjunct) — and a subsequent `validate` enforces both bounds on the
stored string (second conjunct).  The last two conjuncts state the general
merge semantics: a key present in the later specs object overwrites the
earlier value, an absent key keeps it. -/
theorem claim_C6 (name : String) (hname : name ≠ "") (s : String) :
    ((((FormValidator.ofRecord [(name, .vStr s)]).addValidation
        [name] "textLength" (some { minLength := some 3 })).addValidation
        [name] "textLength" (some { maxLength := some 10 })).formObject
      = [(name, ({ name := some name, value := .vStr s, specs := { minLength := some 3, maxLength := some 10 }, validations := ["textLength", "textLength"] } : ValidatorModelItem))])
    ∧ (FormValidator.validate
        (((FormValidator.ofRecord [(name, .vStr s)]).addValidation
          [name] "textLength" (some { minLength := some 3 })).addValidation
          [name] "textLength" (some { maxLength := some 10 }))).map
        (fun w => w.getError name)
      = .ok (if (s.length : Int) < 3 then
              some { errorCode := .lessThanMinLength, specs := some { minLength := some 3 } }
            else if (s.length : Int) > 10 then
              some { errorCode := .moreThanMaxLength, specs := some { maxLength := some 10 } }
            else none)
    ∧ (∀ (a b : ValidationSpecs) (x : Int), b.minLength = some x →
        (mergeSpecs a b).minLength = some x)
    ∧ (∀ a b : ValidationSpecs, b.minLength = none →
        (mergeSpecs a b).minLength = a.minLength) := by
  have hitem : mkValidatorModelItem name (.vStr s)
      = { name := some name, value := .vStr s, specs := {}, validations := [] } := by
    unfold mkValidatorModelItem
    rw [if_pos hname]
  have hobj : (((FormValidator.ofRecord [(name, .vStr s)]).addValidation
      [name] "textLength" (some { minLength := some 3 })).addValidation
      [name] "textLength" (some { maxLength := some 10 })).formObject
      = [(name, ({ name := some name, value := .vStr s, specs := { minLength := some 3, maxLength := some 10 }, validations := ["textLength", "textLength"] } : ValidatorModelItem))] := by
    simp [FormValidator.ofRecord, FormValidator.addValidation, FormValidator.isValidType,
      registerField, registerOnItem, specsArgEmpty, mergeSpecs, hitem]
  have herrs : (((FormValidator.ofRecord [(name, .vStr s)]).addValidation
      [name] "textLength" (some { minLength := some 3 })).addValidation
      [name] "textLength" (some { maxLength := some 10 })).formObjectErrors = [] := rfl
  refine ⟨hobj, ?_, ?_, ?_⟩
  · unfold FormValidator.validate
    rw [hobj, herrs]
    by_cases h3 : (s.length : Int) < 3 <;> by_cases h10 : (s.length : Int) > 10 <;>
      simp [FormValidator.validateItems, FormValidator.fieldLoop, FormValidator.validateField,
        itemKey, truthyNum, setEntry, getEntry, FormValidator.getError, Except.map, h3, h10]
  · intro a b x hb
    simp [mergeSpecs, hb]
  · intro a b hb
    simp [mergeSpecs, hb]

/-- C6 witness: the merged specs, accumulated rule list, and min-bound
enforcement at the concrete field `f` with value `"ab"`. -/
theorem claim_C6_witness :
    ((((FormValidator.ofRecord [("f", .vStr "ab")]).addValidation
        ["f"] "textLength" (some { minLength := some 3 })).addValidation
        ["f"] "textLength" (some { maxLength := some 10 })).formObject
      = [("f", ({ name := some "f", value := .vStr "ab", specs := { minLength := some 3, maxLength := some 10 }, validations := ["textLength", "textLength"] } : ValidatorModelItem))])
    ∧ (FormValidator.validate
        (((FormValidator.ofRecord [("f", .vStr "ab")]).addValidation
          ["f"] "textLength" (some { minLength := some 3 })).addValidation
          ["f"] "textLength" (some { maxLength := some 10 }))).map
        (fun w => w.getError "f")
      = .ok (some { errorCode := .lessThanMinLength, specs := some { minLength := some 3 } }) := by
  have h := claim_C6 "f" (by decide) "ab"
  refine ⟨h.1, ?_⟩
  rw [h.2.1]
  rfl

/-- C6 counterexample: for the field named by the empty string — present at
construction — the constructor's name guard leaves the item's name
`undefined` and its stored value `null`, so after the same two
registrations `validate` does not enforce the bounds on the record's string
value `"ab"`: the field's own key gets no entry and `invalidInput` is
recorded under the key `"undefined"` instead of `lessThanMinLength`. -/
theorem claim_C6_counterexample :
    (FormValidator.validate
        (((FormValidator.ofRecord [("", .vStr "ab")]).addValidation
          [""] "textLength" (some { minLength := some 3 })).addValidation
          [""] "textLength" (some { maxLength := some 10 }))).map
        (fun w => (w.getError "", w.getError "undefined"))
      = .ok (none, some { errorCode := .invalidInput }) := rfl

/-- C8 counterexample: `"undefined"` is not a field of the record
`[("", null)]`, yet after registering `required` on the empty-string field
(whose item name is left `undefined`) `validate` records that field's error
under the key `"undefined"` — an error-map entry for a field name that was
never present at construction. -/
theorem claim_C8_counterexample :
    (FormValidator.validate
        ((FormValidator.ofRecord [("", .vNull)]).addValidation [""] "required" none)).map
      (fun w => w.getError "undefined")
      = .ok (some { errorCode := .empty }) := rfl
